import Mathlib

/-!
Verification of the training/validation loop of `train.py` (image-caption
training). Pure data (scores, captions, attention weights, learning rates)
is embedded over `ℚ`; tensors are nested lists; the cross-entropy criterion
is an opaque function parameter, exactly as `criterion` is a parameter of
`train`/`validate` in the source. Helpers imported from `utils.py`
(`AverageMeter`, `adjust_learning_rate`, `accuracy`, `save_checkpoint`) are
not part of the given sources and are modelled from the spec.
-/

namespace CaptionTrain

/-- Modelled from the spec: the Metric Accumulator (`AverageMeter` from
`utils.py`, not among the given sources). State `{current_value, running_sum,
running_count}`; `update(value, weight)` folds one observation; `average =
running_sum / running_count`. -/
structure AverageMeter where
  val : ℚ
  sum : ℚ
  count : ℚ
  avg : ℚ
deriving DecidableEq

def AverageMeter.empty : AverageMeter := ⟨0, 0, 0, 0⟩

def AverageMeter.update (m : AverageMeter) (v : ℚ) (w : ℚ) : AverageMeter :=
  let sum := m.sum + v * w
  let count := m.count + w
  { val := v, sum := sum, count := count, avg := sum / count }

/-- Fold a list of `(value, weight)` observations into a fresh accumulator. -/
def runMeter (obs : List (ℚ × ℚ)) : AverageMeter :=
  obs.foldl (fun m p => m.update p.1 p.2) AverageMeter.empty

/-- Modelled from the spec: the Learning-Rate Adjuster
(`adjust_learning_rate` from `utils.py`, not among the given sources):
multiplies every parameter group's learning rate by the shrink factor, in
place. An optimizer is represented by its list of parameter-group learning
rates. -/
def adjust_learning_rate (lrGroups : List ℚ) (shrinkFactor : ℚ) : List ℚ :=
  lrGroups.map (fun lr => lr * shrinkFactor)

/-- Modelled from the spec: row membership test of the Top-K Accuracy Scorer
(`accuracy` from `utils.py`, not among the given sources): the target id is
among the k highest-scored columns, i.e. fewer than k columns score strictly
above the target's column. -/
def inTopK (row : List ℚ) (target : ℕ) (k : ℕ) : Bool :=
  decide ((row.filter (fun s => row.getD target 0 < s)).length < k)

/-- Modelled from the spec: the Top-K Accuracy Scorer (`accuracy` from
`utils.py`, not among the given sources): fraction of rows whose target lies
in the top-k scored classes, as a percentage. -/
def accuracy (scores : List (List ℚ)) (targets : List ℕ) (k : ℕ) : ℚ :=
  100 * (((scores.zip targets).countP (fun p => inTopK p.1 p.2 k) : ℚ)) /
    (scores.length : ℚ)

/-- A checkpoint artifact: progress scalars plus model/optimizer numeric
state (spec §3 "Checkpoint"). -/
structure Checkpoint where
  epoch : ℕ
  epochsSinceImprovement : ℕ
  encoderState : List ℚ
  decoderState : List ℚ
  encoderOptimizerState : Option (List ℚ)
  decoderOptimizerState : List ℚ
deriving DecidableEq

/-- The durable artifacts in a save directory: a "latest" entry and a "best"
entry. -/
structure CheckpointStore where
  latest : Option Checkpoint
  best : Option Checkpoint
deriving DecidableEq

/-- Modelled from the spec: the Checkpoint Writer (`save_checkpoint` from
`utils.py`, not among the given sources): always (over)writes the "latest"
artifact; additionally overwrites the "best" artifact iff `is_best`. -/
def save_checkpoint (store : CheckpointStore) (ck : Checkpoint) (isBest : Bool) :
    CheckpointStore :=
  { latest := some ck, best := if isBest then some ck else store.best }

/-- `pack_padded_sequence(x, lens, batch_first=True).data` (torch, external
collaborator): the packed data lists, for each timestep `t` in increasing
order, the rows of the still-active sequences (those with `t < lens[b]`), in
batch order. -/
def packPaddedData {α : Type} (x : List (List α)) (lens : List ℕ) : List α :=
  (List.range (lens.foldr max 0)).flatMap fun t =>
    (x.zip lens).filterMap fun p => if t < p.2 then p.1[t]? else none

/-- `m.sum(dim=0)` for a 2-D tensor given as a list of rows (used to express
`alphas.sum(dim=1)` batchwise): the columnwise sums. The number of columns
of the (rectangular) tensor is read off its first row. -/
def matColSum (m : List (List ℚ)) : List ℚ :=
  (List.range (m.headD []).length).map fun l => (m.map fun r => r.getD l 0).sum

/-- `t.mean()` for a 2-D tensor given as a list of rows: sum of all entries
divided by the number of entries. -/
def matMean (m : List (List ℚ)) : ℚ :=
  (m.map List.sum).sum / ((m.map List.length).sum : ℚ)

/-- The attention regularization term of `train.py` lines 148 / 227:
`((1. - alphas.sum(dim=1))**2).mean()` for `alphas : [B, T, L]`. -/
def attnPenalty (alphas : List (List (List ℚ))) : ℚ :=
  matMean (alphas.map fun m => (matColSum m).map fun a => (1 - a) ^ 2)

/-- Output of the decoder for one batch (spec §3 "DecoderOutput"): per-step
vocabulary scores `[B, T, V]`, captions reordered by descending length
`[B, Tcap]`, per-sample decode lengths, attention weights `[B, T, L]`. -/
structure DecOut where
  scores : List (List (List ℚ))
  capsSorted : List (List ℕ)
  decodeLens : List ℕ
  alphas : List (List (List ℚ))
deriving DecidableEq

/-- `targets = caps_sorted[:, 1:]` (train.py line 137 / 218): drop the
leading start-of-sequence column. -/
def stepTargets (d : DecOut) : List (List ℕ) :=
  d.capsSorted.map (List.drop 1)

/-- `scores = pack_padded_sequence(scores, decode_lens, batch_first=True).data`
(train.py lines 140-141 / 220-221). -/
def packedScores (d : DecOut) : List (List ℚ) :=
  packPaddedData d.scores d.decodeLens

/-- `targets = pack_padded_sequence(targets, decode_lens, batch_first=True).data`
(train.py lines 142-143 / 222-223). -/
def packedTargets (d : DecOut) : List ℕ :=
  packPaddedData (stepTargets d) d.decodeLens

/-- The shared scoring pipeline of the training step (train.py lines 137-148,
168-170) and the validation step (lines 218-231): drop the start token, pack
scores and targets, form `loss = criterion(scores, targets) + alpha_c *
((1 - alphas.sum(dim=1))^2).mean()`, compute top-5 accuracy, and report the
meter weight `sum(decode_lens)`. The criterion is the opaque function
parameter `criterion` of `train`/`validate`. -/
def scoreBatch (alphaC : ℚ) (criterion : List (List ℚ) → List ℕ → ℚ)
    (d : DecOut) : ℚ × ℚ × ℕ :=
  let loss := criterion (packedScores d) (packedTargets d) +
    alphaC * attnPenalty d.alphas
  let top5 := accuracy (packedScores d) (packedTargets d) 5
  (loss, top5, d.decodeLens.sum)

/-- Meter updates of one scoring iteration (train.py lines 168-170 and
229-231): update the loss meter with the batch loss and the top-5 meter with
the batch top-5 accuracy, both weighted by `sum(decode_lens)`. -/
def stepMeters (alphaC : ℚ) (criterion : List (List ℚ) → List ℕ → ℚ)
    (d : DecOut) (meters : AverageMeter × AverageMeter) :
    AverageMeter × AverageMeter :=
  let r := scoreBatch alphaC criterion d
  (meters.1.update r.1 (r.2.2 : ℚ), meters.2.update r.2.1 (r.2.2 : ℚ))

/-- `clip_grad_value_` on one gradient entry (torch, external collaborator):
clamp to `[-c, c]`. -/
def clampGrad (c : ℚ) (g : ℚ) : ℚ := max (-c) (min g c)

/-- Observable effects of the backward/update section of one training-step
iteration (train.py lines 151-166): which optimizers are zeroed and stepped,
and the gradients after the optional clipping. -/
structure StepEffects where
  decZeroed : Bool
  encZeroed : Bool
  decGradsAfterClip : List ℚ
  encGradsAfterClip : List ℚ
  decStepped : Bool
  encStepped : Bool
deriving DecidableEq

/-- The backward/update section of one training-step iteration (train.py
lines 151-166): zero the decoder optimizer, zero the encoder optimizer if
present, backpropagate, clip both models' gradients elementwise when
`grad_clip` is configured (the encoder's only when its optimizer is
present), step the decoder optimizer, step the encoder optimizer if
present. -/
def trainStepBackward (gradClip : Option ℚ) (encOptPresent : Bool)
    (decGrads encGrads : List ℚ) : StepEffects :=
  let clipped : List ℚ × List ℚ :=
    match gradClip with
    | some c =>
        (decGrads.map (clampGrad c),
         if encOptPresent then encGrads.map (clampGrad c) else encGrads)
    | none => (decGrads, encGrads)
  { decZeroed := true
    encZeroed := encOptPresent
    decGradsAfterClip := clipped.1
    encGradsAfterClip := clipped.2
    decStepped := true
    encStepped := encOptPresent }

/-- Encoder/decoder state visible to `validate` (train.py lines 201-239):
numeric parameters plus the train/eval mode flag of each model. `validate`
receives no optimizer. -/
structure ModelState where
  encParams : List ℚ
  decParams : List ℚ
  encTraining : Bool
  decTraining : Bool
deriving DecidableEq

/-- The validation step (train.py lines 201-239): put both models in eval
mode, then for every batch run the scoring pipeline under `torch.no_grad()`
(no backward, no optimizer in scope) and update fresh loss/top-5 meters with
weight `sum(decode_lens)`; return `top5accs.avg`. Encoder/decoder forward
passes are opaque, so a batch is represented by the decoder output it
produces. -/
def validate (alphaC : ℚ) (criterion : List (List ℚ) → List ℕ → ℚ)
    (batches : List DecOut) (m : ModelState) : ModelState × ℚ :=
  let m1 := { m with encTraining := false, decTraining := false }
  let meters := batches.foldl
    (fun ms d => stepMeters alphaC criterion d ms)
    (AverageMeter.empty, AverageMeter.empty)
  (m1, meters.2.avg)

/-- State of the epoch orchestrator `train` (train.py lines 100-198):
best validation score so far, non-improvement counter, and the two
optimizers' parameter-group learning rates (the encoder optimizer is the
`encoder_optimizer is not None` slot). -/
structure OrchState where
  bestTop5acc : ℚ
  epochsSinceImprovement : ℕ
  decOpt : List ℚ
  encOpt : Option (List ℚ)
deriving DecidableEq

/-- Observable events of one executed (non-early-stopped) epoch. -/
structure EpochEvents where
  decayed : Bool
  trained : Bool
  isBest : Bool
  saved : Option Bool
deriving DecidableEq

/-- One executed epoch of `train` (train.py lines 108-198): optional
learning-rate decay, full training pass, validation (abstracted by the
oracle `valScore`, since the models and data are opaque collaborators),
best-score tracking, and the checkpoint decision. -/
def epochBody (saveFreq : ℕ) (valScore : ℕ → ℚ) (epoch : ℕ) (s : OrchState) :
    OrchState × EpochEvents :=
  let s1 :=
    if 0 < s.epochsSinceImprovement ∧ s.epochsSinceImprovement % 8 = 0 then
      { s with decOpt := adjust_learning_rate s.decOpt (4 / 5),
               encOpt := s.encOpt.map (fun o => adjust_learning_rate o (4 / 5)) }
    else s
  let v := valScore epoch
  let isBest : Bool := decide (s1.bestTop5acc < v)
  let best2 := max v s1.bestTop5acc
  let esi2 := if isBest then 0 else s1.epochsSinceImprovement + 1
  ({ s1 with bestTop5acc := best2, epochsSinceImprovement := esi2 },
   { decayed := decide (0 < s.epochsSinceImprovement ∧
       s.epochsSinceImprovement % 8 = 0)
     trained := true
     isBest := isBest
     saved := if (epoch + 1) % saveFreq = 0 then some isBest else none })

/-- The epoch loop of `train` (train.py lines 103-198): runs at most
`budget` epochs starting at index `epoch`, breaking before an epoch whose
starting state has `epochs_since_improvement == 20`; returns the final state
and the trace of executed epochs' events. -/
def train (saveFreq : ℕ) (valScore : ℕ → ℚ) :
    ℕ → ℕ → OrchState → OrchState × List EpochEvents
  | _, 0, s => (s, [])
  | epoch, budget + 1, s =>
    if s.epochsSinceImprovement = 20 then (s, [])
    else
      let r1 := epochBody saveFreq valScore epoch s
      let r2 := train saveFreq valScore (epoch + 1) budget r1.1
      (r2.1, r1.2 :: r2.2)

/-- The initial orchestrator state (train.py lines 101-102) with the given
optimizers. -/
def trainInit (decOpt : List ℚ) (encOpt : Option (List ℚ)) : OrchState :=
  { bestTop5acc := 0, epochsSinceImprovement := 0,
    decOpt := decOpt, encOpt := encOpt }

/-- What `main` (train.py lines 21-97) constructs and hands to `train`:
it applies `encoder.freeze_params(args.freeze_encoder)` and then builds
`encoder_optimizer = torch.optim.Adam(encoder.parameters(), lr=encoder_lr)`
unconditionally, so the encoder-optimizer slot is always occupied. -/
structure MainSetup where
  freezeApplied : Bool
  encoderOptimizer : Option (List ℚ)
  decoderOptimizer : List ℚ
deriving DecidableEq

/-- `main` (train.py lines 68-97): the setup passed to `train`. -/
def mainSetup (freezeEncoder : Bool) (encoderLr decoderLr : ℚ) : MainSetup :=
  { freezeApplied := freezeEncoder
    encoderOptimizer := some [encoderLr]
    decoderOptimizer := [decoderLr] }

/-- Spec formula (§4.5 step 6): `alpha_c * mean_over_batch_and_location(
(1 - sum_over_time(attention_weights))^2)` for a `[B, T, L]` attention
tensor, written as an explicit double sum over batch and location of the
squared deficit of the time-sum, divided by `B * L`. Stated from the spec's
words, to be compared with `attnPenalty` from the code. -/
def specAttnPenalty (B T L : ℕ) (alphas : List (List (List ℚ))) : ℚ :=
  (∑ b ∈ Finset.range B, ∑ l ∈ Finset.range L,
    (1 - ∑ t ∈ Finset.range T, ((alphas.getD b []).getD t []).getD l 0) ^ 2) /
    ((B * L : ℕ) : ℚ)

/-! ### Helper lemmas -/

lemma sum_map_range {M : Type} [AddCommMonoid M] (g : ℕ → M) (n : ℕ) :
    ((List.range n).map g).sum = ∑ t ∈ Finset.range n, g t := by
  induction n with
  | zero => simp
  | succ n ih =>
      rw [List.range_succ, List.map_append, List.sum_append, Finset.sum_range_succ, ih]
      simp

lemma sum_map_getD {α : Type} {M : Type} [AddCommMonoid M] (xs : List α)
    (f : α → M) (dflt : α) :
    (xs.map f).sum = ∑ i ∈ Finset.range xs.length, f (xs.getD i dflt) := by
  induction xs with
  | nil => simp
  | cons x xs ih =>
      simp only [List.map_cons, List.sum_cons, List.length_cons, Finset.sum_range_succ',
        List.getD_cons_succ, List.getD_cons_zero, ih]
      exact add_comm _ _

/-! ### C1 -/

/-- C1: if `epochs_since_improvement` is 20 at the start of an epoch, the
epoch loop `train` terminates there with the state unchanged and an empty
remaining event trace (so no further training, decay, validation or
checkpointing happens); the trace never exceeds the epoch budget; and
termination before the budget is exhausted happens only via this rule: a
trace shorter than the budget ends in a state whose counter is 20. -/
theorem early_stop_policy (saveFreq : ℕ) (valScore : ℕ → ℚ) (epoch budget : ℕ)
    (s : OrchState) :
    (s.epochsSinceImprovement = 20 →
      train saveFreq valScore epoch budget s = (s, [])) ∧
    (train saveFreq valScore epoch budget s).2.length ≤ budget ∧
    ((train saveFreq valScore epoch budget s).2.length < budget →
      (train saveFreq valScore epoch budget s).1.epochsSinceImprovement = 20) := by
  induction budget generalizing epoch s with
  | zero =>
      refine ⟨fun _ => rfl, le_refl _, fun h => absurd h (by simp [train])⟩
  | succ n ih =>
      by_cases h20 : s.epochsSinceImprovement = 20
      · refine ⟨fun _ => by simp [train, h20], ?_, ?_⟩
        · simp [train, h20]
        · intro _
          simp [train, h20]
      · have ihx := ih (epoch + 1) (epochBody saveFreq valScore epoch s).1
        refine ⟨fun h => absurd h h20, ?_, ?_⟩
        · simp only [train, h20, if_false]
          exact Nat.succ_le_succ ihx.2.1
        · simp only [train, h20, if_false]
          intro hlt
          exact ihx.2.2 (Nat.lt_of_succ_lt_succ hlt)

/-- Witness for C1: at a concrete state whose counter is 20 the loop stops
immediately. -/
theorem early_stop_policy_witness :
    train 10 (fun _ => 0) 0 5 ⟨0, 20, [1], none⟩ = (⟨0, 20, [1], none⟩, []) :=
  (early_stop_policy 10 (fun _ => 0) 0 5 ⟨0, 20, [1], none⟩).1 rfl

/-! ### C2 -/

/-- C2: an executed (non-early-stopped) epoch applies the learning-rate
adjuster exactly when `0 < epochs_since_improvement` and
`epochs_since_improvement % 8 == 0`; it then multiplies the decoder
optimizer's rates by 4/5 = 0.8 and the encoder optimizer's rates likewise
when present; the decay never resets the counter (the counter's update
depends only on the validation outcome); and in a run with no improvement
the decay fires exactly at counter values 8 and 16, compounding the rates to
16/25 = 0.64 of their original value. -/
theorem decay_policy (saveFreq : ℕ) (valScore : ℕ → ℚ) (epoch : ℕ) (s : OrchState) :
    ((epochBody saveFreq valScore epoch s).2.decayed =
      decide (0 < s.epochsSinceImprovement ∧ s.epochsSinceImprovement % 8 = 0)) ∧
    (0 < s.epochsSinceImprovement ∧ s.epochsSinceImprovement % 8 = 0 →
      (epochBody saveFreq valScore epoch s).1.decOpt =
        adjust_learning_rate s.decOpt (4 / 5) ∧
      (epochBody saveFreq valScore epoch s).1.encOpt =
        s.encOpt.map (fun o => adjust_learning_rate o (4 / 5))) ∧
    ((epochBody saveFreq valScore epoch s).1.epochsSinceImprovement =
      if s.bestTop5acc < valScore epoch then 0 else s.epochsSinceImprovement + 1) ∧
    ((train 1000 (fun _ => 0) 0 25 (trainInit [1] (some [1]))).2.map
        (fun ev => ev.decayed) =
      [false, false, false, false, false, false, false, false, true, false,
       false, false, false, false, false, false, true, false, false, false]) ∧
    (train 1000 (fun _ => 0) 0 25 (trainInit [1] (some [1]))).1.decOpt =
      [(16 : ℚ) / 25] ∧
    (train 1000 (fun _ => 0) 0 25 (trainInit [1] (some [1]))).1.encOpt =
      some [(16 : ℚ) / 25] := by
  refine ⟨rfl, fun h => ?_, ?_, ?_, ?_, ?_⟩
  · constructor <;> simp [epochBody, h]
  · simp only [epochBody]
    split <;> simp
  · norm_num [train, epochBody, trainInit, adjust_learning_rate]
  · norm_num [train, epochBody, trainInit, adjust_learning_rate]
  · norm_num [train, epochBody, trainInit, adjust_learning_rate]

/-- Witness for C2: at counter value 8 the decay fires and multiplies both
optimizers' rates by 4/5. -/
theorem decay_policy_witness :
    (epochBody 10 (fun _ => 0) 3 ⟨0, 8, [1], some [2]⟩).1.decOpt =
        adjust_learning_rate [1] (4 / 5) ∧
    (epochBody 10 (fun _ => 0) 3 ⟨0, 8, [1], some [2]⟩).1.encOpt =
        some (adjust_learning_rate [2] (4 / 5)) :=
  (decay_policy 10 (fun _ => 0) 3 ⟨0, 8, [1], some [2]⟩).2.1 (by decide)

/-! ### C3 -/

/-- C3: after validation, `is_best` holds iff the epoch's validation score
strictly exceeds the best score so far; the best score becomes the max of
the two; the counter is reset to 0 on improvement and incremented by 1
otherwise; and for the score sequence 0.3, 0.5, 0.4, 0.6 the `is_best`
trace is true, true, false, true with final best score 0.6. -/
theorem best_tracking (saveFreq : ℕ) (valScore : ℕ → ℚ) (epoch : ℕ) (s : OrchState) :
    ((epochBody saveFreq valScore epoch s).2.isBest =
      decide (s.bestTop5acc < valScore epoch)) ∧
    ((epochBody saveFreq valScore epoch s).1.bestTop5acc =
      max (valScore epoch) s.bestTop5acc) ∧
    ((epochBody saveFreq valScore epoch s).1.epochsSinceImprovement =
      if s.bestTop5acc < valScore epoch then 0 else s.epochsSinceImprovement + 1) ∧
    ((train 1000 (fun e => [(3 : ℚ) / 10, 5 / 10, 4 / 10, 6 / 10].getD e 0) 0 4
        (trainInit [1] none)).2.map (fun ev => ev.isBest) =
      [true, true, false, true]) ∧
    (train 1000 (fun e => [(3 : ℚ) / 10, 5 / 10, 4 / 10, 6 / 10].getD e 0) 0 4
        (trainInit [1] none)).1.bestTop5acc = 6 / 10 := by
  refine ⟨?_, ?_, ?_, ?_, ?_⟩
  · simp only [epochBody]
    split <;> simp
  · simp only [epochBody]
    split <;> simp
  · simp only [epochBody]
    split <;> simp
  · norm_num [train, epochBody, trainInit]
  · norm_num [train, epochBody, trainInit]

/-! ### C6 -/

/-- C6: in a training-step iteration with a configured clip threshold the
decoder gradients are clamped elementwise to `[-c, c]`, and the encoder
gradients only when the encoder optimizer is present; without a threshold no
gradient changes; and in every case the decoder optimizer steps while the
encoder optimizer steps iff it is present. -/
theorem grad_clip_policy (c : ℚ) (hc : 0 ≤ c) (encOptPresent : Bool)
    (gradClip : Option ℚ) (decGrads encGrads : List ℚ) :
    ((trainStepBackward (some c) encOptPresent decGrads encGrads).decGradsAfterClip =
      decGrads.map (clampGrad c)) ∧
    (∀ g ∈ (trainStepBackward (some c) encOptPresent decGrads
        encGrads).decGradsAfterClip, -c ≤ g ∧ g ≤ c) ∧
    ((trainStepBackward (some c) encOptPresent decGrads encGrads).encGradsAfterClip =
      if encOptPresent then encGrads.map (clampGrad c) else encGrads) ∧
    (∀ g ∈ (trainStepBackward (some c) true decGrads encGrads).encGradsAfterClip,
      -c ≤ g ∧ g ≤ c) ∧
    ((trainStepBackward none encOptPresent decGrads encGrads).decGradsAfterClip =
        decGrads ∧
      (trainStepBackward none encOptPresent decGrads encGrads).encGradsAfterClip =
        encGrads) ∧
    ((trainStepBackward gradClip encOptPresent decGrads encGrads).decStepped = true ∧
      (trainStepBackward gradClip encOptPresent decGrads encGrads).encStepped =
        encOptPresent) := by
  have hbound : ∀ (l : List ℚ), ∀ g ∈ l.map (clampGrad c), -c ≤ g ∧ g ≤ c := by
    intro l g hg
    obtain ⟨g0, -, rfl⟩ := List.mem_map.1 hg
    exact ⟨le_max_left _ _,
      max_le (neg_nonpos_of_nonneg hc |>.trans hc) (min_le_right _ _)⟩
  refine ⟨rfl, hbound decGrads, rfl, hbound encGrads, ⟨rfl, rfl⟩, ?_⟩
  cases gradClip <;> exact ⟨rfl, rfl⟩

/-- Witness for C6: clipping with threshold 5 clamps concrete decoder
gradients. -/
theorem grad_clip_policy_witness :
    (trainStepBackward (some 5) true [(7 : ℚ), -9] [(3 : ℚ)]).decGradsAfterClip =
      [(7 : ℚ), -9].map (clampGrad 5) :=
  (grad_clip_policy 5 (by decide) true (some 5) [(7 : ℚ), -9] [(3 : ℚ)]).1

/-! ### C9 -/

/-- C9: an executed epoch invokes the checkpoint writer iff
`(epoch + 1) % save_freq == 0`, handing it that epoch's `is_best`; the
writer always overwrites the "latest" artifact and additionally writes the
"best" artifact exactly when `is_best` is true. -/
theorem checkpoint_policy (saveFreq : ℕ) (valScore : ℕ → ℚ) (epoch : ℕ)
    (s : OrchState) (store : CheckpointStore) (ck : Checkpoint) (isBest : Bool)
    (hfreq : 0 < saveFreq) :
    ((epochBody saveFreq valScore epoch s).2.saved =
      if (epoch + 1) % saveFreq = 0 then
        some (epochBody saveFreq valScore epoch s).2.isBest
      else none) ∧
    (save_checkpoint store ck isBest).latest = some ck ∧
    ((save_checkpoint store ck isBest).best =
      if isBest then some ck else store.best) :=
  ⟨rfl, rfl, rfl⟩

/-- Witness for C9: with `save_freq = 10`, epoch 9 saves; the writer updates
both artifacts when `is_best` is true. -/
theorem checkpoint_policy_witness :
    ((epochBody 10 (fun _ => (1 : ℚ)) 9 (trainInit [1] none)).2.saved =
      if (9 + 1) % 10 = 0 then
        some (epochBody 10 (fun _ => (1 : ℚ)) 9 (trainInit [1] none)).2.isBest
      else none) ∧
    (save_checkpoint ⟨none, none⟩ ⟨0, 0, [], [], none, []⟩ true).latest =
      some ⟨0, 0, [], [], none, []⟩ ∧
    ((save_checkpoint ⟨none, none⟩ ⟨0, 0, [], [], none, []⟩ true).best =
      if true then some ⟨0, 0, [], [], none, []⟩ else none) :=
  checkpoint_policy 10 (fun _ => 1) 9 (trainInit [1] none) ⟨none, none⟩
    ⟨0, 0, [], [], none, []⟩ true (by decide)

/-! ### C10 -/

/-- C10: `main` constructs the encoder optimizer unconditionally, so the
slot handed to `train` is occupied for every value of `freeze_encoder`;
consequently every training-step iteration zeroes and steps the encoder
optimizer, a configured clip threshold clips the encoder gradients, and
every decay event also multiplies the encoder learning rate by 4/5 = 0.8. -/
theorem encoder_optimizer_always_present (freezeEncoder : Bool)
    (encoderLr decoderLr c : ℚ) (gradClip : Option ℚ)
    (decGrads encGrads : List ℚ) (saveFreq : ℕ) (valScore : ℕ → ℚ)
    (epoch : ℕ) (s : OrchState) :
    (mainSetup freezeEncoder encoderLr decoderLr).encoderOptimizer =
      some [encoderLr] ∧
    ((trainStepBackward gradClip
        (mainSetup freezeEncoder encoderLr decoderLr).encoderOptimizer.isSome
        decGrads encGrads).encZeroed = true ∧
      (trainStepBackward gradClip
        (mainSetup freezeEncoder encoderLr decoderLr).encoderOptimizer.isSome
        decGrads encGrads).encStepped = true) ∧
    ((trainStepBackward (some c)
        (mainSetup freezeEncoder encoderLr decoderLr).encoderOptimizer.isSome
        decGrads encGrads).encGradsAfterClip = encGrads.map (clampGrad c)) ∧
    (s.encOpt = (mainSetup freezeEncoder encoderLr decoderLr).encoderOptimizer →
      0 < s.epochsSinceImprovement → s.epochsSinceImprovement % 8 = 0 →
      (epochBody saveFreq valScore epoch s).1.encOpt =
        some (adjust_learning_rate [encoderLr] (4 / 5))) := by
  refine ⟨rfl, ⟨rfl, rfl⟩, rfl, fun hs h1 h2 => ?_⟩
  simp [epochBody, h1, h2, hs, mainSetup]

/-- Witness for C10: with the encoder frozen, a decay event at counter 8
still shrinks the encoder learning rate. -/
theorem encoder_optimizer_always_present_witness :
    (epochBody 10 (fun _ => 0) 3 ⟨0, 8, [2], some [1]⟩).1.encOpt =
      some (adjust_learning_rate [1] (4 / 5)) :=
  (encoder_optimizer_always_present true 1 2 5 none [] [] 10 (fun _ => 0) 3
    ⟨0, 8, [2], some [1]⟩).2.2.2 rfl (by decide) (by decide)

/-! ### C7 -/

lemma meterFold_sum_count (obs : List (ℚ × ℚ)) (m : AverageMeter) :
    (obs.foldl (fun m p => m.update p.1 p.2) m).sum =
        m.sum + (obs.map (fun p => p.1 * p.2)).sum ∧
      (obs.foldl (fun m p => m.update p.1 p.2) m).count =
        m.count + (obs.map Prod.snd).sum := by
  induction obs generalizing m with
  | nil => simp
  | cons p obs ih =>
      have h := ih (m.update p.1 p.2)
      simp only [List.foldl_cons, List.map_cons, List.sum_cons] at h ⊢
      refine ⟨h.1.trans ?_, h.2.trans ?_⟩
      · show m.sum + p.1 * p.2 + _ = _
        ring
      · show m.count + p.2 + _ = _
        ring

lemma meterFold_avg (obs : List (ℚ × ℚ)) (m : AverageMeter)
    (h : m.avg = m.sum / m.count) :
    (obs.foldl (fun m p => m.update p.1 p.2) m).avg =
      (obs.foldl (fun m p => m.update p.1 p.2) m).sum /
        (obs.foldl (fun m p => m.update p.1 p.2) m).count := by
  induction obs generalizing m with
  | nil => exact h
  | cons p obs ih => exact ih (m.update p.1 p.2) rfl

lemma meterFold_val (obs : List (ℚ × ℚ)) (m : AverageMeter) (h : obs ≠ []) :
    (obs.foldl (fun m p => m.update p.1 p.2) m).val = (obs.getLast h).1 := by
  induction obs generalizing m with
  | nil => exact absurd rfl h
  | cons p obs ih =>
      cases obs with
      | nil => rfl
      | cons q rest =>
          rw [List.foldl_cons, ih (m.update p.1 p.2) (List.cons_ne_nil q rest),
            List.getLast_cons (List.cons_ne_nil q rest)]

/-- C7: folding any nonempty sequence of `(value, weight)` observations into
a fresh accumulator yields `average = sum(value * weight) / sum(weight)` and
`current = value` of the last update; and the per-batch meter update of the
training/validation steps records the loss and the top-5 accuracy with
weight `sum(decode_lens)`. -/
theorem meter_accumulator (obs : List (ℚ × ℚ)) (h : obs ≠ []) (alphaC : ℚ)
    (criterion : List (List ℚ) → List ℕ → ℚ) (d : DecOut)
    (meters : AverageMeter × AverageMeter) :
    (runMeter obs).avg =
      (obs.map (fun p => p.1 * p.2)).sum / (obs.map Prod.snd).sum ∧
    (runMeter obs).val = (obs.getLast h).1 ∧
    stepMeters alphaC criterion d meters =
      (meters.1.update (scoreBatch alphaC criterion d).1 (d.decodeLens.sum : ℚ),
       meters.2.update (scoreBatch alphaC criterion d).2.1
         (d.decodeLens.sum : ℚ)) := by
  refine ⟨?_, meterFold_val obs AverageMeter.empty h, rfl⟩
  have hs := meterFold_sum_count obs AverageMeter.empty
  have ha := meterFold_avg obs AverageMeter.empty (by simp [AverageMeter.empty])
  rw [runMeter, ha, hs.1, hs.2]
  simp [AverageMeter.empty]

/-- Witness for C7: two concrete observations give the weighted average and
the last value. -/
theorem meter_accumulator_witness :
    (runMeter [((2 : ℚ), (3 : ℚ)), ((4 : ℚ), (1 : ℚ))]).avg =
      ([((2 : ℚ), (3 : ℚ)), ((4 : ℚ), (1 : ℚ))].map (fun p => p.1 * p.2)).sum /
        ([((2 : ℚ), (3 : ℚ)), ((4 : ℚ), (1 : ℚ))].map Prod.snd).sum :=
  (meter_accumulator [((2 : ℚ), (3 : ℚ)), ((4 : ℚ), (1 : ℚ))] (by simp) 0
    (fun _ _ => 0) ⟨[], [], [], []⟩ (AverageMeter.empty, AverageMeter.empty)).1

/-! ### C8 -/

lemma stepMeters_fold (alphaC : ℚ) (criterion : List (List ℚ) → List ℕ → ℚ)
    (batches : List DecOut) (a b : AverageMeter) :
    batches.foldl (fun ms d => stepMeters alphaC criterion d ms) (a, b) =
      ((batches.map fun d => ((scoreBatch alphaC criterion d).1,
          ((scoreBatch alphaC criterion d).2.2 : ℚ))).foldl
            (fun m p => m.update p.1 p.2) a,
       (batches.map fun d => ((scoreBatch alphaC criterion d).2.1,
          ((scoreBatch alphaC criterion d).2.2 : ℚ))).foldl
            (fun m p => m.update p.1 p.2) b) := by
  induction batches generalizing a b with
  | nil => rfl
  | cons d batches ih =>
      simp only [List.foldl_cons, List.map_cons]
      exact ih _ _

/-- C8: the validation step only flips both models to inference mode —
every numeric field of the model state is returned unchanged (and no
optimizer is even in its scope, so no zeroing/stepping/clipping can occur)
— and it returns the weighted average of the per-batch top-5 accuracies,
weighted by each batch's `sum(decode_lens)`, over the whole validation
set. -/
theorem validate_frame (alphaC : ℚ) (criterion : List (List ℚ) → List ℕ → ℚ)
    (batches : List DecOut) (m : ModelState) :
    (validate alphaC criterion batches m).1 =
      { m with encTraining := false, decTraining := false } ∧
    (validate alphaC criterion batches m).1.encParams = m.encParams ∧
    (validate alphaC criterion batches m).1.decParams = m.decParams ∧
    (validate alphaC criterion batches m).1.encTraining = false ∧
    (validate alphaC criterion batches m).1.decTraining = false ∧
    (validate alphaC criterion batches m).2 =
      (batches.map fun d => (scoreBatch alphaC criterion d).2.1 *
        ((scoreBatch alphaC criterion d).2.2 : ℚ)).sum /
      (batches.map fun d => ((scoreBatch alphaC criterion d).2.2 : ℚ)).sum := by
  refine ⟨rfl, rfl, rfl, rfl, rfl, ?_⟩
  show (batches.foldl (fun ms d => stepMeters alphaC criterion d ms)
    (AverageMeter.empty, AverageMeter.empty)).2.avg = _
  rw [stepMeters_fold]
  set obs := batches.map fun d => ((scoreBatch alphaC criterion d).2.1,
    ((scoreBatch alphaC criterion d).2.2 : ℚ)) with hobs
  have hs := meterFold_sum_count obs AverageMeter.empty
  have ha := meterFold_avg obs AverageMeter.empty (by simp [AverageMeter.empty])
  rw [ha, hs.1, hs.2]
  simp [AverageMeter.empty, hobs, List.map_map, Function.comp_def]

/-! ### C5 -/

lemma le_foldr_max (lens : List ℕ) : ∀ l ∈ lens, l ≤ lens.foldr max 0 := by
  induction lens with
  | nil => simp
  | cons a as ih =>
      intro l hl
      rcases List.mem_cons.1 hl with rfl | hl
      · exact le_max_left _ _
      · exact le_trans (ih l hl) (le_max_right _ _)

lemma sum_range_ite_lt (a M : ℕ) (h : a ≤ M) :
    (∑ t ∈ Finset.range M, if t < a then 1 else 0) = a := by
  rw [Finset.sum_boole]
  have he : (Finset.range M).filter (fun t => t < a) = Finset.range a := by
    ext t
    simp only [Finset.mem_filter, Finset.mem_range]
    omega
  rw [he, Finset.card_range, Nat.cast_id]

lemma sum_range_countP_lt (lens : List ℕ) (M : ℕ) (h : ∀ l ∈ lens, l ≤ M) :
    (∑ t ∈ Finset.range M, lens.countP (fun l => decide (t < l))) = lens.sum := by
  induction lens with
  | nil => simp
  | cons a as ih =>
      have has : ∀ l ∈ as, l ≤ M := fun l hl => h l (List.mem_cons_of_mem _ hl)
      simp only [List.countP_cons, List.sum_cons]
      rw [Finset.sum_add_distrib, ih has]
      have ha := sum_range_ite_lt a M (h a (List.mem_cons_self a as))
      simp only [decide_eq_true_eq] at *
      omega

lemma packPaddedData_length {α : Type} (x : List (List α)) (lens : List ℕ)
    (hlen : lens.length ≤ x.length)
    (h : ∀ p ∈ x.zip lens, p.2 ≤ p.1.length) :
    (packPaddedData x lens).length = lens.sum := by
  rw [packPaddedData, List.flatMap_def, List.length_flatten, List.map_map,
    Function.comp_def]
  have hcount : ∀ t, ((x.zip lens).filterMap
      (fun p => if t < p.2 then p.1[t]? else none)).length =
      lens.countP (fun l => decide (t < l)) := by
    intro t
    rw [List.length_filterMap_eq_countP]
    have h1 : (x.zip lens).countP
        (fun p => (if t < p.2 then p.1[t]? else none).isSome) =
        (x.zip lens).countP (fun p => decide (t < p.2)) := by
      refine List.countP_congr (fun p hp => ?_)
      by_cases hlt : t < p.2
      · have : t < p.1.length := lt_of_lt_of_le hlt (h p hp)
        simp [hlt, List.getElem?_eq_getElem this]
      · simp [hlt]
    rw [h1]
    have h2 : (x.zip lens).map Prod.snd = lens := List.map_snd_zip x lens hlen
    calc (x.zip lens).countP (fun p => decide (t < p.2))
        = ((x.zip lens).map Prod.snd).countP (fun l => decide (t < l)) := by
          rw [List.countP_map]
          rfl
      _ = lens.countP (fun l => decide (t < l)) := by rw [h2]
  have hmap : (List.range (lens.foldr max 0)).map
      (fun t => ((x.zip lens).filterMap
        (fun p => if t < p.2 then p.1[t]? else none)).length) =
      (List.range (lens.foldr max 0)).map
        (fun t => lens.countP (fun l => decide (t < l))) :=
    List.map_congr_left (fun t _ => hcount t)
  rw [hmap, sum_map_range, sum_range_countP_lt lens _ (le_foldr_max lens)]

lemma packPaddedData_mem {α : Type} (x : List (List α)) (lens : List ℕ) (a : α)
    (ha : a ∈ packPaddedData x lens) :
    ∃ b t, t < lens.getD b 0 ∧ (x.getD b [])[t]? = some a := by
  rw [packPaddedData] at ha
  obtain ⟨t, -, hmem⟩ := List.mem_flatMap.1 ha
  obtain ⟨p, hp, hpa⟩ := List.mem_filterMap.1 hmem
  by_cases hlt : t < p.2
  · rw [if_pos hlt] at hpa
    obtain ⟨b, hb, hzb⟩ := List.getElem_of_mem hp
    have hz : (x.zip lens)[b]? = some p := by
      rw [List.getElem?_eq_getElem hb, hzb]
    obtain ⟨h1, h2⟩ := List.getElem?_zip_eq_some.1 hz
    refine ⟨b, t, ?_, ?_⟩
    · obtain ⟨hb2, he2⟩ := List.getElem?_eq_some_iff.1 h2
      rw [List.getD_eq_getElem?_getD, List.getElem?_eq_getElem hb2, he2]
      exact hlt
    · obtain ⟨hb1, he1⟩ := List.getElem?_eq_some_iff.1 h1
      rw [List.getD_eq_getElem?_getD, List.getElem?_eq_getElem hb1, he1,
        Option.getD_some, hpa]
  · rw [if_neg hlt] at hpa
    exact absurd hpa (Option.noConfusion)

/-- C5: in the shared scoring pipeline the target sequence is
`caps_sorted[:, 1:]` (the sorted captions with the leading start-of-sequence
column dropped), the packed scores and targets each have exactly
`sum(decode_lens)` rows, and every packed row originates from a position
strictly below its sample's decode length (all padded positions are
dropped). -/
theorem packing_flattening (d : DecOut)
    (hs : d.decodeLens.length ≤ d.scores.length)
    (hsl : ∀ p ∈ d.scores.zip d.decodeLens, p.2 ≤ p.1.length)
    (ht : d.decodeLens.length ≤ (stepTargets d).length)
    (htl : ∀ p ∈ (stepTargets d).zip d.decodeLens, p.2 ≤ p.1.length) :
    stepTargets d = d.capsSorted.map (List.drop 1) ∧
    packedScores d = packPaddedData d.scores d.decodeLens ∧
    packedTargets d = packPaddedData (d.capsSorted.map (List.drop 1)) d.decodeLens ∧
    (packedScores d).length = d.decodeLens.sum ∧
    (packedTargets d).length = d.decodeLens.sum ∧
    (∀ a ∈ packedScores d, ∃ b t, t < d.decodeLens.getD b 0 ∧
      (d.scores.getD b [])[t]? = some a) ∧
    (∀ a ∈ packedTargets d, ∃ b t, t < d.decodeLens.getD b 0 ∧
      ((stepTargets d).getD b [])[t]? = some a) :=
  ⟨rfl, rfl, rfl,
   packPaddedData_length d.scores d.decodeLens hs hsl,
   packPaddedData_length (stepTargets d) d.decodeLens ht htl,
   fun a ha => packPaddedData_mem d.scores d.decodeLens a ha,
   fun a ha => packPaddedData_mem (stepTargets d) d.decodeLens a ha⟩

/-- Witness for C5: a concrete two-sample batch with decode lengths `[2, 1]`
packs to exactly 3 rows. -/
theorem packing_flattening_witness :
    (packedScores ⟨[[[1], [2]], [[3], [4]]], [[9, 1, 2], [8, 3, 4]], [2, 1],
      [[[1]]]⟩).length = [2, 1].sum ∧
    (packedTargets ⟨[[[1], [2]], [[3], [4]]], [[9, 1, 2], [8, 3, 4]], [2, 1],
      [[[1]]]⟩).length = [2, 1].sum :=
  ⟨(packing_flattening ⟨[[[1], [2]], [[3], [4]]], [[9, 1, 2], [8, 3, 4]], [2, 1],
      [[[1]]]⟩ (by decide) (by decide) (by decide) (by decide)).2.2.2.1,
   (packing_flattening ⟨[[[1], [2]], [[3], [4]]], [[9, 1, 2], [8, 3, 4]], [2, 1],
      [[[1]]]⟩ (by decide) (by decide) (by decide) (by decide)).2.2.2.2.1⟩

/-! ### C4 -/

lemma matColSum_spec (m : List (List ℚ)) (T L : ℕ) (hT : m.length = T)
    (hT0 : 0 < T) (hL : ∀ r ∈ m, r.length = L) :
    matColSum m = (List.range L).map
      (fun l => ∑ t ∈ Finset.range T, (m.getD t []).getD l 0) := by
  have hhead : (m.headD []).length = L := by
    cases m with
    | nil => rw [List.length_nil] at hT; omega
    | cons r rs => exact hL r (List.mem_cons_self r rs)
  rw [matColSum, hhead]
  refine List.map_congr_left (fun l _ => ?_)
  rw [sum_map_getD m (fun r => r.getD l 0) [], hT]

lemma attnPenalty_eq_spec (alphas : List (List (List ℚ))) (B T L : ℕ)
    (hB : alphas.length = B) (hT0 : 0 < T)
    (hT : ∀ m ∈ alphas, m.length = T)
    (hL : ∀ m ∈ alphas, ∀ r ∈ m, r.length = L) :
    attnPenalty alphas = specAttnPenalty B T L alphas := by
  have hcs : ∀ m ∈ alphas, (matColSum m).map (fun a => (1 - a) ^ 2) =
      (List.range L).map
        (fun l => (1 - ∑ t ∈ Finset.range T, (m.getD t []).getD l 0) ^ 2) := by
    intro m hm
    rw [matColSum_spec m T L (hT m hm) hT0 (hL m hm), List.map_map]
    rfl
  set X := alphas.map (fun m => (matColSum m).map fun a => (1 - a) ^ 2) with hX
  have hXlen : X.length = B := by rw [hX, List.length_map, hB]
  have hXgetD : ∀ b, b < B → X.getD b [] =
      (matColSum (alphas.getD b [])).map (fun a => (1 - a) ^ 2) := by
    intro b hbB
    have hbA : b < alphas.length := hB ▸ hbB
    rw [hX, List.getD_eq_getElem?_getD, List.getElem?_map,
      List.getElem?_eq_getElem hbA, List.getD_eq_getElem?_getD,
      List.getElem?_eq_getElem hbA]
    rfl
  have hnum : (X.map List.sum).sum =
      ∑ b ∈ Finset.range B, ∑ l ∈ Finset.range L,
        (1 - ∑ t ∈ Finset.range T, ((alphas.getD b []).getD t []).getD l 0) ^ 2 := by
    rw [sum_map_getD X List.sum [], hXlen]
    refine Finset.sum_congr rfl (fun b hb => ?_)
    have hbB : b < B := Finset.mem_range.1 hb
    have hbA : b < alphas.length := hB ▸ hbB
    have hmem : alphas.getD b [] ∈ alphas := by
      rw [List.getD_eq_getElem?_getD, List.getElem?_eq_getElem hbA]
      exact List.getElem_mem hbA
    rw [hXgetD b hbB, hcs (alphas.getD b []) hmem, sum_map_range]
  have hden : (X.map List.length).sum = B * L := by
    rw [sum_map_getD X List.length [], hXlen]
    have hlen : ∀ b ∈ Finset.range B, (X.getD b []).length = L := by
      intro b hb
      have hbB : b < B := Finset.mem_range.1 hb
      have hbA : b < alphas.length := hB ▸ hbB
      have hmem : alphas.getD b [] ∈ alphas := by
        rw [List.getD_eq_getElem?_getD, List.getElem?_eq_getElem hbA]
        exact List.getElem_mem hbA
      rw [hXgetD b hbB, List.length_map,
        matColSum_spec (alphas.getD b []) T L (hT _ hmem) hT0 (hL _ hmem),
        List.length_map, List.length_range]
    rw [Finset.sum_congr rfl hlen, Finset.sum_const, Finset.card_range,
      smul_eq_mul]
  rw [attnPenalty, matMean]
  rw [show alphas.map (fun m => (matColSum m).map fun a => (1 - a) ^ 2) = X from rfl]
  rw [hnum, hden, specAttnPenalty]

/-- C4: in the shared scoring pipeline of the training and validation steps,
the total loss is the criterion applied to the packed scores and packed
targets plus `alpha_c` times the mean, over batch samples and spatial
locations, of the squared difference between 1 and the sum of the attention
weights over the time dimension. -/
theorem loss_formula (B T L : ℕ) (alphaC : ℚ)
    (criterion : List (List ℚ) → List ℕ → ℚ) (d : DecOut)
    (hB : d.alphas.length = B) (hT0 : 0 < T)
    (hT : ∀ m ∈ d.alphas, m.length = T)
    (hL : ∀ m ∈ d.alphas, ∀ r ∈ m, r.length = L) :
    (scoreBatch alphaC criterion d).1 =
      criterion (packedScores d) (packedTargets d) +
        alphaC * specAttnPenalty B T L d.alphas := by
  show criterion (packedScores d) (packedTargets d) +
      alphaC * attnPenalty d.alphas = _
  rw [attnPenalty_eq_spec d.alphas B T L hB hT0 hT hL]

/-- Witness for C4: a concrete batch with one sample, two timesteps and two
locations. -/
theorem loss_formula_witness :
    (scoreBatch 1 (fun _ _ => 0)
        ⟨[[[1]]], [[9, 1]], [1], [[[1 / 2, 1 / 4], [1 / 2, 1 / 4]]]⟩).1 =
      (fun (_ : List (List ℚ)) (_ : List ℕ) => (0 : ℚ))
          (packedScores ⟨[[[1]]], [[9, 1]], [1], [[[1 / 2, 1 / 4], [1 / 2, 1 / 4]]]⟩)
          (packedTargets ⟨[[[1]]], [[9, 1]], [1], [[[1 / 2, 1 / 4], [1 / 2, 1 / 4]]]⟩) +
        1 * specAttnPenalty 1 2 2
          (DecOut.alphas ⟨[[[1]]], [[9, 1]], [1], [[[1 / 2, 1 / 4], [1 / 2, 1 / 4]]]⟩) :=
  loss_formula 1 2 2 1 (fun _ _ => 0)
    ⟨[[[1]]], [[9, 1]], [1], [[[1 / 2, 1 / 4], [1 / 2, 1 / 4]]]⟩
    rfl (by decide) (by decide) (by decide)

end CaptionTrain
